import Mathlib

/-!
Shallow embedding of the crosschain repository (Go) in Lean 4.

Strings from the Go source are modelled as lists of Unicode code points
(`List Nat`); `rstr` converts a Lean string literal to that representation.
`strings.ToUpper` is modelled on the ASCII range (the repository only ever
compares ASCII identifiers), `strings.Split(s, ".")` is `splitDot`.

Sections:
* `Crosschain` — amount.go: asset / native-asset classification and the
  `GetAssetIDFromAsset` canonicalization algorithm, and the
  `AmountBlockchain` big-integer amount type.
* `Cosmos` — chain/cosmos/tx.go and chain/cosmos/address.go: the cosmos
  transaction adapter and address builder.  Partial Go operations (slice
  indexing, type assertions, method calls on nil interfaces) are modelled
  with `Option`: `none` is a run-time panic.
-/

namespace Crosschain

/-- Convert a Lean string literal to the rune-list representation used for
Go strings throughout this development. -/
def rstr (s : String) : List Nat := s.data.map Char.toNat

/-- ASCII uppercase of one rune, modelling `unicode.ToUpper` on the ASCII
range (97..122 are the lowercase letters). -/
def runeToUpper (r : Nat) : Nat := if 97 ≤ r ∧ r ≤ 122 then r - 32 else r

/-- Model of `strings.ToUpper`. -/
def upperRunes (s : List Nat) : List Nat := s.map runeToUpper

/-- Model of `strings.Split(s, ".")`: split a string at every occurrence of the dot
(code point 46).  `splitDot [] = [[]]`, matching Go's `Split("", ".") = [""]`. -/
def splitDot : List Nat → List (List Nat)
  | [] => [[]]
  | r :: rest =>
    if r = 46 then [] :: splitDot rest
    else
      match splitDot rest with
      | [] => [[r]]
      | s :: tl => (r :: s) :: tl

/-- Type `AssetType` from amount.go: either `native` or `token`. -/
inductive AssetType where
  | native
  | token
deriving DecidableEq, Repr

/-- Type `ChainType` from amount.go: `unknown`, `utxo` or `account`. -/
inductive ChainType where
  | unknown
  | utxo
  | account
deriving DecidableEq, Repr

/-- The UTXO natives of the `NativeAsset` enumeration (first `case` of the
switches in `Asset.AssetType` and `NativeAsset.ChainType`). -/
def utxoNatives : List (List Nat) := [rstr "BCH", rstr "BTC", rstr "DOGE"]

/-- The account-based natives of the `NativeAsset` enumeration (second
`case` of the switches in `Asset.AssetType` and `NativeAsset.ChainType`). -/
def accountNatives : List (List Nat) :=
  [rstr "ACA", rstr "ArbETH", rstr "ATOM", rstr "AurETH", rstr "AVAX",
   rstr "BNB", rstr "CELO", rstr "ETC", rstr "ETH", rstr "FTM",
   rstr "KAR", rstr "KLAY", rstr "LUNA", rstr "MATIC", rstr "OptETH",
   rstr "ROSE", rstr "SOL"]

/-- The full `NativeAsset` enumeration. -/
def natives : List (List Nat) := utxoNatives ++ accountNatives

/-- Function `Asset.AssetType()`: a switch comparing the string byte-for-byte against
the `NativeAsset` constants; any other string is a token. -/
def assetType (asset : List Nat) : AssetType :=
  if asset ∈ utxoNatives then AssetType.native
  else if asset ∈ accountNatives then AssetType.native
  else AssetType.token

/-- Function `NativeAsset.ChainType()`: a switch comparing the string byte-for-byte
against the `NativeAsset` constants; any other string is `unknown`. -/
def chainType (native : List Nat) : ChainType :=
  if native ∈ utxoNatives then ChainType.utxo
  else if native ∈ accountNatives then ChainType.account
  else ChainType.unknown

/-- The default chain `"ETH"`. -/
def ethRunes : List Nat := rstr "ETH"

/-- The `strings.Split` block of `parseAssetAndNativeAsset`: when the asset
splits at a dot into exactly two components whose second classifies as
native, keep the first component and, if no native asset was supplied, adopt
the second as the native asset.  `match splitDot asset with | [a0, a1] => ...`
mirrors the Go check `len(assetSplit) == 2` followed by indexing
`assetSplit[0]`, `assetSplit[1]`. -/
def parseSplit (asset nativeAsset : List Nat) : List Nat × List Nat :=
  match splitDot asset with
  | [a0, a1] =>
    if assetType a1 = AssetType.native then
      (a0, if nativeAsset = [] then a1 else nativeAsset)
    else (asset, nativeAsset)
  | _ => (asset, nativeAsset)

/-- The tail of `parseAssetAndNativeAsset`: default an absent native asset
to the asset itself when that classifies as native (`validNative`), else to
`"ETH"`, then uppercase the native asset. -/
def parseDefaults (p : List Nat × List Nat) : List Nat × List Nat :=
  (p.1,
   upperRunes
     (if p.2 = [] then
        (if assetType p.1 = AssetType.native then p.1 else ethRunes)
      else p.2))

/-- Function `parseAssetAndNativeAsset` from amount.go, transcribed as a pipeline of
its three stages: the empty-input handling, the dot-split rewrite
(`parseSplit`), and the native-asset defaulting plus uppercasing
(`parseDefaults`). -/
def parseAssetAndNativeAsset (asset nativeAsset : List Nat) : List Nat × List Nat :=
  if asset = [] ∧ nativeAsset = [] then ([], [])
  else
    parseDefaults
      (parseSplit (if asset = [] ∧ nativeAsset ≠ [] then nativeAsset else asset)
        nativeAsset)

/-- The tail of `GetAssetIDFromAsset` after the parse: uppercase the asset,
re-check nativeness (`validNative`), and assemble the identifier through the
three `return` branches of the Go function. -/
def assembleAssetID (p : List Nat × List Nat) : List Nat :=
  if upperRunes p.1 = p.2 then upperRunes p.1
  else if p.2 = ethRunes ∧ ¬ assetType (upperRunes p.1) = AssetType.native then
    upperRunes p.1
  else upperRunes p.1 ++ [46] ++ p.2

/-- Function `GetAssetIDFromAsset` from amount.go. -/
def GetAssetIDFromAsset (asset nativeAsset : List Nat) : List Nat :=
  assembleAssetID (parseAssetAndNativeAsset asset nativeAsset)

/-- Type `AmountBlockchain` is `big.Int`: an arbitrary-precision integer. -/
abbrev AmountBlockchain := Int

/-- Function `AmountBlockchain.Uint64()`: `big.Int.Uint64` returns the low 64 bits of
the absolute value of the integer. -/
def AmountBlockchain.toUint64 (amount : AmountBlockchain) : Nat :=
  amount.natAbs % 2 ^ 64

/-- Function `NewAmountBlockchainFromUint64`: the argument is a `uint64`, so its
value is reduced modulo `2^64` at entry. -/
def NewAmountBlockchainFromUint64 (u64 : Nat) : AmountBlockchain :=
  ((u64 % 2 ^ 64 : Nat) : Int)

end Crosschain

namespace Cosmos

open Crosschain

/-- Type `types.Coin` from the cosmos SDK: a denomination and an arbitrary
precision integer amount (`sdk.Int`, whose `BigInt()` we read). -/
structure Coin where
  denom : List Nat
  amount : Int
deriving DecidableEq, Repr

/-- A message of a cosmos transaction.  The adapter recognizes exactly
`*banktypes.MsgSend` (from-address, to-address, coin list); every other
message kind is collapsed into `other`, carrying an opaque tag. -/
inductive Msg where
  | msgSend (fromAddress toAddress : List Nat) (amount : List Coin)
  | other (tag : Nat)
deriving DecidableEq, Repr

/-- The dynamic content of a non-nil `types.Tx` interface value: its message
list (`GetMsgs`), whether its dynamic type implements `types.FeeTx`, and in
that case its fee coin list (`GetFee`). -/
structure CosmosTxData where
  msgs : List Msg
  isFeeTx : Bool
  fee : List Coin
deriving DecidableEq, Repr

/-- Type `signingtypes.SignatureData`: either `*SingleSignatureData` (sign mode
plus signature bytes) or some other implementation (e.g. multi-signature
data), collapsed into `multi`. -/
inductive SignatureData where
  | single (signMode : Nat) (signature : List Nat)
  | multi (tag : Nat)
deriving DecidableEq, Repr

/-- Type `signingtypes.SignatureV2`: the adapter only reads and writes its
`Data` field. -/
structure SignatureV2 where
  data : SignatureData
deriving DecidableEq, Repr

/-- Interface `client.TxBuilder`: the adapter only calls `GetTx()` (which may return a
nil transaction) and `SetSignatures` (whose error is ignored by the code). -/
structure TxBuilder where
  getTx : Option CosmosTxData
deriving DecidableEq, Repr

/-- Type `types.TxEncoder`: an externally supplied function from a transaction to
a byte slice (`none` models a nil slice) and an error (`none` models nil). -/
def TxEncoder : Type := CosmosTxData → Option (List Nat) × Option String

/-- Type `Tx` from chain/cosmos/tx.go.  Nilable Go fields become `Option`s; the
`SigsV2` slice is a list (a nil slice and an empty slice behave alike in
every operation of the file). -/
structure Tx where
  cosmosTx : Option CosmosTxData
  parsedTransfer : Option Msg
  cosmosTxBuilder : Option TxBuilder
  cosmosTxEncoder : Option TxEncoder
  sigsV2 : List SignatureV2
  txDataToSign : Option (List Nat)

/-- Method `Tx.Sighash()`. -/
def Tx.sighash (tx : Tx) : Except String (List Nat) :=
  match tx.txDataToSign with
  | none => Except.error "transaction not initialized"
  | some d => Except.ok d

/-- Method `Tx.AddSignature(signature)`.  The outer `Option` models panics: `none`
is the panic of the unchecked type assertion
`data.(*signingtypes.SingleSignatureData)` when the first slot's data is not
single-signature data.  On success the updated transaction is returned. -/
def Tx.addSignature (tx : Tx) (signature : List Nat) : Option (Except String Tx) :=
  match tx.sigsV2, tx.cosmosTxBuilder with
  | [], _ => some (Except.error "transaction not initialized")
  | _ :: _, none => some (Except.error "transaction not initialized")
  | s0 :: rest, some _ =>
    match s0.data with
    | SignatureData.single signMode _ =>
      some (Except.ok
        { tx with sigsV2 := { data := SignatureData.single signMode signature } :: rest })
    | SignatureData.multi _ => none

/-- Method `Tx.Serialize()`: returns the pair (serialized bytes or nil, error or
nil).  The not-initialized branches return the non-nil empty slice
`[]byte{}`, i.e. `some []`. -/
def Tx.serialize (tx : Tx) : Option (List Nat) × Option String :=
  match tx.cosmosTxEncoder with
  | none => (some [], some "transaction not initialized")
  | some enc =>
    let txToEncode := match tx.cosmosTxBuilder with
      | some b => b.getTx
      | none => tx.cosmosTx
    match txToEncode with
    | none => (some [], some "transaction not initialized")
    | some t => enc t

/-- One hex digit, lowercase, as produced by `encoding/hex`. -/
def hexDigit (d : Nat) : Nat := if d < 10 then 48 + d else 87 + d

/-- Model of `hex.EncodeToString`: two lowercase hex digits per byte. -/
def hexEncode (bytes : List Nat) : List Nat :=
  bytes.foldr (fun b acc => hexDigit (b / 16) :: hexDigit (b % 16) :: acc) []

/-- Model of `tmhash.Sum`: SHA-256 from the external tendermint library.  Modelled as
a deterministic function of the input returning a 32-byte digest; only
determinism and the fixed 32-byte output length are used. -/
def tmhashSum (bytes : List Nat) : List Nat :=
  (List.range 32).map fun i => (bytes.foldl (fun a b => (a * 31 + b) % 256) i) % 256

/-- Method `Tx.Hash()`: empty string when serialization errs or yields nil or empty
bytes, otherwise the hex encoding of the digest of the serialized bytes. -/
def Tx.hash (tx : Tx) : List Nat :=
  let s := tx.serialize
  match s.2, s.1 with
  | some _, _ => []
  | none, none => []
  | none, some serialized =>
    if serialized.length = 0 then []
    else hexEncode (tmhashSum serialized)

/-- Whether a message is the one transfer kind the adapter recognizes,
`*banktypes.MsgSend`. -/
def Msg.isSend : Msg → Bool
  | Msg.msgSend _ _ _ => true
  | Msg.other _ => false

/-- The loop body of `Tx.ParseTransfer()`: range over the message list,
overwriting the accumulator with every `*banktypes.MsgSend` encountered (so
the last transfer-bearing message wins), skipping every other kind. -/
def parseLoop (acc : Option Msg) : List Msg → Option Msg
  | [] => acc
  | m :: rest =>
    match m with
    | Msg.msgSend _ _ _ => parseLoop (some m) rest
    | Msg.other _ => parseLoop acc rest

/-- Method `Tx.ParseTransfer()`: iterate over `GetMsgs()`, storing each
`*banktypes.MsgSend` encountered into `ParsedTransfer`.  `none` models the
panic of calling `GetMsgs()` on a nil `types.Tx` interface. -/
def Tx.parseTransfer (tx : Tx) : Option Tx :=
  match tx.cosmosTx with
  | none => none
  | some d =>
    some { tx with parsedTransfer := parseLoop tx.parsedTransfer d.msgs }

/-- Method `Tx.From()`. -/
def Tx.fromAddress (tx : Tx) : List Nat :=
  match tx.parsedTransfer with
  | some (Msg.msgSend f _ _) => f
  | _ => []

/-- Method `Tx.To()`. -/
def Tx.toAddress (tx : Tx) : List Nat :=
  match tx.parsedTransfer with
  | some (Msg.msgSend _ t _) => t
  | _ => []

/-- Method `Tx.Amount()`: reads `tf.Amount[0]` of the parsed `MsgSend`; `none`
models the index-out-of-range panic when the coin list is empty. -/
def Tx.amount (tx : Tx) : Option Crosschain.AmountBlockchain :=
  match tx.parsedTransfer with
  | some (Msg.msgSend _ _ coins) =>
    match coins with
    | [] => none
    | c :: _ => some c.amount
  | _ => some (Crosschain.NewAmountBlockchainFromUint64 0)

/-- Method `Tx.Fee()`: reads `tf.GetFee()[0]` when the transaction's dynamic type
is a `types.FeeTx`; `none` models the index-out-of-range panic when the fee
list is empty. -/
def Tx.fee (tx : Tx) : Option Crosschain.AmountBlockchain :=
  match tx.cosmosTx with
  | some d =>
    if d.isFeeTx then
      match d.fee with
      | [] => none
      | c :: _ => some c.amount
    else some (Crosschain.NewAmountBlockchainFromUint64 0)
  | none => some (Crosschain.NewAmountBlockchainFromUint64 0)

/-- Modelled from the spec: `xc.AddressType` — the variant tag of a derived
address, "defaulting to a single 'default' variant when the chain has no
alternate encodings" (§4.2); its definition lives in a root-package file not
under src/. -/
inductive AddressType where
  | default
deriving DecidableEq, Repr

/-- Modelled from the spec: `xc.PossibleAddress` — an address paired with
the variant tag it was derived as (§4.2); its definition lives in a
root-package file not under src/. -/
structure PossibleAddress where
  address : List Nat
  addrType : AddressType
deriving DecidableEq, Repr

/-- Method `AddressBuilder.GetAddressFromPublicKey` from chain/cosmos/address.go:
always the empty address paired with a "not implemented" error. -/
def getAddressFromPublicKey (publicKeyBytes : List Nat) : List Nat × Option String :=
  ([], some "not implemented")

/-- A fully initialized example transaction: fee-bearing with a non-empty
fee list, a parsed transfer with a non-empty coin list, and one
single-signature signer slot together with a builder. -/
def initializedTx : Tx :=
  { cosmosTx := some { msgs := [], isFeeTx := true, fee := [⟨rstr "atom", 3⟩] },
    parsedTransfer :=
      some (Msg.msgSend (rstr "a") (rstr "b") [⟨rstr "atom", 2⟩]),
    cosmosTxBuilder := some { getTx := none },
    cosmosTxEncoder := none,
    sigsV2 := [{ data := SignatureData.single 1 (rstr "old") }],
    txDataToSign := none }

/-- Method `AddressBuilder.GetAllPossibleAddressesFromPublicKey` from
chain/cosmos/address.go. -/
def getAllPossibleAddressesFromPublicKey (publicKeyBytes : List Nat) :
    List PossibleAddress × Option String :=
  let p := getAddressFromPublicKey publicKeyBytes
  ([{ address := p.1, addrType := AddressType.default }], p.2)


end Cosmos

namespace Crosschain

lemma runeToUpper_runeToUpper (r : Nat) : runeToUpper (runeToUpper r) = runeToUpper r := by
  unfold runeToUpper
  split_ifs <;> omega

lemma runeToUpper_eq_dot_iff (r : Nat) : runeToUpper r = 46 ↔ r = 46 := by
  unfold runeToUpper
  split_ifs <;> omega

lemma upperRunes_idem (s : List Nat) : upperRunes (upperRunes s) = upperRunes s := by
  induction s with
  | nil => rfl
  | cons r t ih =>
    simp only [upperRunes, List.map_cons] at *
    rw [runeToUpper_runeToUpper]
    exact congrArg _ ih

lemma dot_not_mem_upperRunes {s : List Nat} (h : 46 ∉ s) : 46 ∉ upperRunes s := by
  intro hm
  rcases List.mem_map.1 hm with ⟨r, hr, he⟩
  exact h ((runeToUpper_eq_dot_iff r).1 he ▸ hr)

lemma upperRunes_append (a b : List Nat) :
    upperRunes (a ++ b) = upperRunes a ++ upperRunes b :=
  List.map_append _ _ _

lemma upperRunes_eq_nil {s : List Nat} (h : upperRunes s = []) : s = [] :=
  List.map_eq_nil_iff.1 h

lemma splitDot_no_dot {s : List Nat} (h : 46 ∉ s) : splitDot s = [s] := by
  induction s with
  | nil => rfl
  | cons r t ih =>
    have hr : ¬ r = 46 := fun e => h (e ▸ List.mem_cons_self r t)
    have ht : 46 ∉ t := fun m => h (List.mem_cons_of_mem _ m)
    simp only [splitDot]
    rw [if_neg hr, ih ht]

lemma splitDot_append_dot {a : List Nat} (h : 46 ∉ a) (b : List Nat) :
    splitDot (a ++ 46 :: b) = a :: splitDot b := by
  induction a with
  | nil =>
    show splitDot (46 :: b) = [] :: splitDot b
    simp [splitDot]
  | cons r t ih =>
    have hr : ¬ r = 46 := fun e => h (e ▸ List.mem_cons_self r t)
    have ht : 46 ∉ t := fun m => h (List.mem_cons_of_mem _ m)
    show splitDot (r :: (t ++ 46 :: b)) = (r :: t) :: splitDot b
    simp only [splitDot]
    rw [if_neg hr, ih ht]

lemma splitDot_pair {a b : List Nat} (ha : 46 ∉ a) (hb : 46 ∉ b) :
    splitDot (a ++ 46 :: b) = [a, b] := by
  rw [splitDot_append_dot ha, splitDot_no_dot hb]

lemma natives_no_dot : ∀ s ∈ natives, 46 ∉ s := by decide

lemma assetType_native_iff (s : List Nat) :
    assetType s = AssetType.native ↔ s ∈ natives := by
  unfold assetType natives
  split_ifs with h1 h2
  · simp [List.mem_append, h1]
  · simp [List.mem_append, h2]
  · simp [List.mem_append, h1, h2]

lemma assetType_token_of_dot {s : List Nat} (h : 46 ∈ s) :
    assetType s = AssetType.token := by
  cases q : assetType s with
  | token => rfl
  | native => exact absurd h (natives_no_dot s ((assetType_native_iff s).1 q))

lemma eth_native : assetType ethRunes = AssetType.native := by decide

lemma upper_ethRunes : upperRunes ethRunes = ethRunes := by decide

lemma eth_no_dot : (46 : Nat) ∉ ethRunes := by decide

lemma assetType_nil : assetType ([] : List Nat) = AssetType.token := by decide

lemma parseSplit_no_dot {a : List Nat} (h : 46 ∉ a) (n : List Nat) :
    parseSplit a n = (a, n) := by
  unfold parseSplit
  rw [splitDot_no_dot h]

lemma parseSplit_pair_native {a b : List Nat} (ha : 46 ∉ a) (hb : 46 ∉ b)
    (hnat : assetType b = AssetType.native) (n : List Nat) :
    parseSplit (a ++ 46 :: b) n = (a, if n = [] then b else n) := by
  unfold parseSplit
  rw [splitDot_pair ha hb]
  simp [hnat]

lemma parseSplit_pair_token {a b : List Nat} (ha : 46 ∉ a) (hb : 46 ∉ b)
    (hnat : ¬ assetType b = AssetType.native) (n : List Nat) :
    parseSplit (a ++ 46 :: b) n = (a ++ 46 :: b, n) := by
  unfold parseSplit
  rw [splitDot_pair ha hb]
  simp [hnat]

lemma parseDefaults_def (x y : List Nat) :
    parseDefaults (x, y) =
      (x,
       upperRunes
         (if y = [] then (if assetType x = AssetType.native then x else ethRunes)
          else y)) :=
  rfl

lemma assembleAssetID_def (x y : List Nat) :
    assembleAssetID (x, y) =
      if upperRunes x = y then upperRunes x
      else if y = ethRunes ∧ ¬ assetType (upperRunes x) = AssetType.native then
        upperRunes x
      else upperRunes x ++ [46] ++ y :=
  rfl

/-- Re-canonicalizing an uppercase-fixed, dot-free string returns it. -/
lemma getAssetID_fixed_single {U : List Nat} (hU : upperRunes U = U) (hd : 46 ∉ U) :
    GetAssetIDFromAsset U [] = U := by
  by_cases hnil : U = []
  · subst hnil
    decide
  · have hguard : ¬ (U = [] ∧ ([] : List Nat) = []) := fun h => hnil h.1
    have hswap : ¬ (U = [] ∧ ([] : List Nat) ≠ []) := fun h => hnil h.1
    unfold GetAssetIDFromAsset parseAssetAndNativeAsset
    rw [if_neg hguard, if_neg hswap, parseSplit_no_dot hd, parseDefaults_def,
      if_pos rfl]
    by_cases hnat : assetType U = AssetType.native
    · rw [if_pos hnat, assembleAssetID_def, if_pos rfl]
      exact hU
    · rw [if_neg hnat, upper_ethRunes, assembleAssetID_def, hU]
      have hne : U ≠ ethRunes := fun e => hnat (e ▸ eth_native)
      rw [if_neg hne, if_pos ⟨rfl, hnat⟩]

/-- Re-canonicalizing an uppercase-fixed, dot-free pair `U.n` that took the
concatenation branch of `assembleAssetID` returns it. -/
lemma getAssetID_fixed_pair {U n : List Nat} (hU : upperRunes U = U) (hdU : 46 ∉ U)
    (hn : upperRunes n = n) (hdn : 46 ∉ n) (hne : ¬ U = n)
    (hbr : ¬ (n = ethRunes ∧ ¬ assetType U = AssetType.native)) :
    GetAssetIDFromAsset (U ++ [46] ++ n) [] = U ++ [46] ++ n := by
  have hassoc : U ++ [46] ++ n = U ++ 46 :: n := by simp
  have hOnil : U ++ 46 :: n ≠ [] := by simp
  have hguard : ¬ (U ++ 46 :: n = [] ∧ ([] : List Nat) = []) := fun h => hOnil h.1
  have hswap : ¬ (U ++ 46 :: n = [] ∧ ([] : List Nat) ≠ []) := fun h => hOnil h.1
  have hupperO : upperRunes (U ++ 46 :: n) = U ++ 46 :: n := by
    have : upperRunes (46 :: n) = 46 :: upperRunes n := by
      simp [upperRunes, runeToUpper]
    rw [upperRunes_append, hU, this, hn]
  rw [hassoc]
  unfold GetAssetIDFromAsset parseAssetAndNativeAsset
  rw [if_neg hguard, if_neg hswap]
  by_cases hnatn : assetType n = AssetType.native
  · have hnnil : ¬ ([] : List Nat) = n := fun e => by
      rw [← e] at hnatn
      exact absurd hnatn (by decide)
    rw [parseSplit_pair_native hdU hdn hnatn, if_pos rfl, parseDefaults_def]
    rw [if_neg (fun e => hnnil e.symm), hn, assembleAssetID_def, hU]
    rw [if_neg hne, if_neg hbr, hassoc]
  · rw [parseSplit_pair_token hdU hdn hnatn, parseDefaults_def]
    have hOdot : (46 : Nat) ∈ U ++ 46 :: n := by simp
    have hOtoken : ¬ assetType (U ++ 46 :: n) = AssetType.native := by
      rw [assetType_token_of_dot hOdot]
      intro h
      exact AssetType.noConfusion h
    rw [if_pos rfl, if_neg hOtoken, upper_ethRunes, assembleAssetID_def, hupperO]
    have hOne : ¬ (U ++ 46 :: n) = ethRunes := fun e => by
      rw [e] at hOdot
      exact eth_no_dot hOdot
    rw [if_neg hOne, if_pos ⟨rfl, hOtoken⟩]

/-- The output of `GetAssetIDFromAsset` on dot-free inputs is either a
single uppercase-fixed dot-free string, or the dotted concatenation of two
such strings that took the third branch of `assembleAssetID`. -/
lemma getAssetID_output_shape (asset hint : List Nat) (ha : 46 ∉ asset) (hh : 46 ∉ hint) :
    (∃ U, upperRunes U = U ∧ 46 ∉ U ∧ GetAssetIDFromAsset asset hint = U) ∨
    (∃ U n, upperRunes U = U ∧ 46 ∉ U ∧ upperRunes n = n ∧ 46 ∉ n ∧
      ¬ U = n ∧ ¬ (n = ethRunes ∧ ¬ assetType U = AssetType.native) ∧
      GetAssetIDFromAsset asset hint = U ++ [46] ++ n) := by
  by_cases hg : asset = [] ∧ hint = []
  · left
    refine ⟨[], rfl, by simp, ?_⟩
    unfold GetAssetIDFromAsset parseAssetAndNativeAsset
    rw [if_pos hg]
    rfl
  · have key : ∀ A : List Nat, 46 ∉ A →
        (∃ U, upperRunes U = U ∧ 46 ∉ U ∧
          assembleAssetID (parseDefaults (parseSplit A hint)) = U) ∨
        (∃ U n, upperRunes U = U ∧ 46 ∉ U ∧ upperRunes n = n ∧ 46 ∉ n ∧
          ¬ U = n ∧ ¬ (n = ethRunes ∧ ¬ assetType U = AssetType.native) ∧
          assembleAssetID (parseDefaults (parseSplit A hint)) = U ++ [46] ++ n) := by
      intro A hA
      rw [parseSplit_no_dot hA, parseDefaults_def]
      set m := (if hint = [] then
          (if assetType A = AssetType.native then A else ethRunes)
        else hint) with hmdef
      have hm : 46 ∉ m := by
        rw [hmdef]
        split_ifs
        · exact hA
        · exact eth_no_dot
        · exact hh
      rw [assembleAssetID_def]
      have hUfix : upperRunes (upperRunes A) = upperRunes A := upperRunes_idem A
      have hnfix : upperRunes (upperRunes m) = upperRunes m := upperRunes_idem m
      have hUdot : 46 ∉ upperRunes A := dot_not_mem_upperRunes hA
      have hndot : 46 ∉ upperRunes m := dot_not_mem_upperRunes hm
      by_cases h1 : upperRunes A = upperRunes m
      · exact Or.inl ⟨upperRunes A, hUfix, hUdot, by rw [if_pos h1]⟩
      · by_cases h2 : upperRunes m = ethRunes ∧
            ¬ assetType (upperRunes A) = AssetType.native
        · exact Or.inl ⟨upperRunes A, hUfix, hUdot, by rw [if_neg h1, if_pos h2]⟩
        · exact Or.inr ⟨upperRunes A, upperRunes m, hUfix, hUdot, hnfix, hndot,
            h1, h2, by rw [if_neg h1, if_neg h2]⟩
    have hA : 46 ∉ (if asset = [] ∧ hint ≠ [] then hint else asset) := by
      split_ifs <;> assumption
    have hstep : GetAssetIDFromAsset asset hint =
        assembleAssetID
          (parseDefaults
            (parseSplit (if asset = [] ∧ hint ≠ [] then hint else asset) hint)) := by
      unfold GetAssetIDFromAsset parseAssetAndNativeAsset
      rw [if_neg hg]
    rw [hstep]
    exact key _ hA

/-- Claim C1 counterexample: canonicalization is not idempotent on all inputs.
`GetAssetIDFromAsset "BTC.btc" ""` yields `"BTC.BTC"` (the suffix `"btc"` is
not recognized as native, so the whole string is uppercased as a token
symbol), but canonicalizing `"BTC.BTC"` again strips the now-recognized
suffix and yields `"BTC"`. -/
theorem getAssetID_idem_cex :
    GetAssetIDFromAsset (GetAssetIDFromAsset (rstr "BTC.btc") []) [] ≠
      GetAssetIDFromAsset (rstr "BTC.btc") [] := by decide

/-- Claim C1 (amended): canonicalization is idempotent on every input pair in
which neither the asset string nor the native hint contains the separator
`'.'` (code point 46): `GetAssetIDFromAsset (GetAssetIDFromAsset asset hint) ""`
equals `GetAssetIDFromAsset asset hint`.  (Dotted inputs whose suffix changes
classification under uppercasing, such as `"BTC.btc"`, break idempotence.) -/
theorem getAssetID_idem_on_dotfree (asset hint : List Nat)
    (ha : 46 ∉ asset) (hh : 46 ∉ hint) :
    GetAssetIDFromAsset (GetAssetIDFromAsset asset hint) [] =
      GetAssetIDFromAsset asset hint := by
  rcases getAssetID_output_shape asset hint ha hh with
    ⟨U, h1, h2, h3⟩ | ⟨U, n, h1, h2, h3, h4, h5, h6, h7⟩
  · rw [h3]
    exact getAssetID_fixed_single h1 h2
  · rw [h7]
    exact getAssetID_fixed_pair h1 h2 h3 h4 h5 h6

/-- Claim C1 witness: the amended idempotence theorem applied at the concrete
dot-free input `("usdc", "sol")`. -/
theorem getAssetID_idem_on_dotfree_witness :
    (46 ∉ rstr "usdc") ∧ (46 ∉ rstr "sol") ∧
    GetAssetIDFromAsset (GetAssetIDFromAsset (rstr "usdc") (rstr "sol")) [] =
      GetAssetIDFromAsset (rstr "usdc") (rstr "sol") :=
  ⟨by decide, by decide,
    getAssetID_idem_on_dotfree (rstr "usdc") (rstr "sol") (by decide) (by decide)⟩

/-- Claim C2 counterexample: native self-identity fails for the mixed-case
enumerated native `"ArbETH"`: `GetAssetIDFromAsset "ArbETH" ""` yields the
uppercased `"ARBETH"`, not the enumerated spelling `"ArbETH"`. -/
theorem native_self_identity_cex :
    GetAssetIDFromAsset (rstr "ArbETH") [] = rstr "ARBETH" ∧
    GetAssetIDFromAsset (rstr "ArbETH") [] ≠ rstr "ArbETH" := by decide

/-- Claim C2 (amended): for every enumerated native asset `N`,
`GetAssetIDFromAsset N ""` and `GetAssetIDFromAsset N N` both yield the
uppercased spelling of `N` (which equals `N` itself for the seventeen
natives whose enumerated spelling is all-uppercase, but differs for
`ArbETH`, `AurETH` and `OptETH`). -/
theorem native_self_identity_upper :
    ∀ N ∈ natives,
      GetAssetIDFromAsset N [] = upperRunes N ∧
      GetAssetIDFromAsset N N = upperRunes N := by
  decide

/-- Claim C2 witness: the amended native self-identity theorem applied at the
concrete enumerated native `"ArbETH"`. -/
theorem native_self_identity_upper_witness :
    rstr "ArbETH" ∈ natives ∧
    (GetAssetIDFromAsset (rstr "ArbETH") [] = upperRunes (rstr "ArbETH") ∧
     GetAssetIDFromAsset (rstr "ArbETH") (rstr "ArbETH") = upperRunes (rstr "ArbETH")) :=
  ⟨by decide, native_self_identity_upper (rstr "ArbETH") (by decide)⟩

/-- Claim C5 counterexample: the "any other token gets SYMBOL.CHAIN" clause
fails.  For `GetAssetIDFromAsset "USDC" "USDC"` the symbol is a token and
the resolved chain is `"USDC"` (not the default `"ETH"`), yet the result is
the bare `"USDC"`, not `"USDC.USDC"`: the `asset == nativeAsset` branch
fires before the token branches. -/
theorem default_chain_omission_cex :
    ¬ assetType (upperRunes (parseAssetAndNativeAsset (rstr "USDC") (rstr "USDC")).1) =
      AssetType.native ∧
    (parseAssetAndNativeAsset (rstr "USDC") (rstr "USDC")).2 ≠ ethRunes ∧
    GetAssetIDFromAsset (rstr "USDC") (rstr "USDC") = rstr "USDC" ∧
    GetAssetIDFromAsset (rstr "USDC") (rstr "USDC") ≠ rstr "USDC.USDC" := by
  decide

/-- Claim C5 (amended): the four concrete identities hold, and for every input
pair whose parsed, uppercased symbol is not native: if the resolved chain is
`"ETH"` or equals the uppercased symbol itself, the result is the bare
uppercased symbol; otherwise the result is `SYMBOL ++ "." ++ CHAIN`. -/
theorem default_chain_omission :
    GetAssetIDFromAsset (rstr "USDC") [] = rstr "USDC" ∧
    GetAssetIDFromAsset (rstr "USDC") (rstr "ETH") = rstr "USDC" ∧
    GetAssetIDFromAsset (rstr "USDC") (rstr "SOL") = rstr "USDC.SOL" ∧
    GetAssetIDFromAsset (rstr "USDC.SOL") [] = rstr "USDC.SOL" ∧
    (∀ asset hint : List Nat,
      ¬ assetType (upperRunes (parseAssetAndNativeAsset asset hint).1) =
          AssetType.native →
      (((parseAssetAndNativeAsset asset hint).2 = ethRunes ∨
        upperRunes (parseAssetAndNativeAsset asset hint).1 =
          (parseAssetAndNativeAsset asset hint).2) →
        GetAssetIDFromAsset asset hint =
          upperRunes (parseAssetAndNativeAsset asset hint).1) ∧
      (¬ (parseAssetAndNativeAsset asset hint).2 = ethRunes →
       ¬ upperRunes (parseAssetAndNativeAsset asset hint).1 =
          (parseAssetAndNativeAsset asset hint).2 →
        GetAssetIDFromAsset asset hint =
          upperRunes (parseAssetAndNativeAsset asset hint).1 ++ [46] ++
            (parseAssetAndNativeAsset asset hint).2)) := by
  refine ⟨by decide, by decide, by decide, by decide, ?_⟩
  intro asset hint htok
  rcases hp : parseAssetAndNativeAsset asset hint with ⟨a, n⟩
  rw [hp] at htok
  constructor
  · intro hor
    unfold GetAssetIDFromAsset
    rw [hp, assembleAssetID_def]
    by_cases h1 : upperRunes a = n
    · rw [if_pos h1]
    · rcases hor with he | ha2
      · rw [if_neg h1, if_pos ⟨he, htok⟩]
      · exact absurd ha2 h1
  · intro hne ha2
    unfold GetAssetIDFromAsset
    rw [hp, assembleAssetID_def]
    rw [if_neg ha2, if_neg (fun hc => hne hc.1)]

/-- Claim C5 witness: the amended default-chain theorem's general clause
applied at the concrete token input `("DAI", "SOL")`. -/
theorem default_chain_omission_witness :
    GetAssetIDFromAsset (rstr "DAI") (rstr "SOL") =
      upperRunes (parseAssetAndNativeAsset (rstr "DAI") (rstr "SOL")).1 ++ [46] ++
        (parseAssetAndNativeAsset (rstr "DAI") (rstr "SOL")).2 :=
  (default_chain_omission.2.2.2.2 (rstr "DAI") (rstr "SOL") (by decide)).2
    (by decide) (by decide)

/-- Claim C10: `AssetType`/`ChainType` classification is exact, case-sensitive
membership in the `NativeAsset` enumeration: `assetType` returns `native`
exactly on enumerated strings, `chainType` returns `utxo` exactly on the
three UTXO natives and `account` exactly on the seventeen account natives,
and every other string — including case variants such as `"btc"` and
`"ARBETH"` — classifies as `token` and `unknown`. -/
theorem classification_exact :
    (∀ s : List Nat, assetType s = AssetType.native ↔ s ∈ natives) ∧
    (∀ s : List Nat, chainType s = ChainType.utxo ↔ s ∈ utxoNatives) ∧
    (∀ s : List Nat, chainType s = ChainType.account ↔ s ∈ accountNatives) ∧
    (∀ s : List Nat, s ∉ natives →
      assetType s = AssetType.token ∧ chainType s = ChainType.unknown) ∧
    assetType (rstr "btc") = AssetType.token ∧
    chainType (rstr "btc") = ChainType.unknown ∧
    assetType (rstr "ARBETH") = AssetType.token ∧
    chainType (rstr "ARBETH") = ChainType.unknown := by
  have hdisj : ∀ s ∈ utxoNatives, s ∉ accountNatives := by decide
  refine ⟨assetType_native_iff, ?_, ?_, ?_, by decide, by decide, by decide, by decide⟩
  · intro s
    unfold chainType
    split_ifs with h1 h2
    · simp [h1]
    · simp [h1]
    · simp [h1]
  · intro s
    unfold chainType
    split_ifs with h1 h2
    · simp [hdisj s h1]
    · simp [h2]
    · simp [h2]
  · intro s hs
    have h1 : s ∉ utxoNatives := fun m =>
      hs (by unfold natives; exact List.mem_append.2 (Or.inl m))
    have h2 : s ∉ accountNatives := fun m =>
      hs (by unfold natives; exact List.mem_append.2 (Or.inr m))
    unfold assetType chainType
    rw [if_neg h1, if_neg h2, if_neg h1, if_neg h2]
    exact ⟨rfl, rfl⟩

/-- Claim C10 witness: the classification theorem applied at the concrete
non-enumerated string `"USDC"`. -/
theorem classification_exact_witness :
    rstr "USDC" ∉ natives ∧
    (assetType (rstr "USDC") = AssetType.token ∧
     chainType (rstr "USDC") = ChainType.unknown) :=
  ⟨by decide, classification_exact.2.2.2.1 (rstr "USDC") (by decide)⟩

/-- Claim C9 counterexample: `AmountBlockchain` magnitudes above the `uint64`
range are truncated by `Uint64()`: at the value `2^64` the conversion
returns `0`, not the represented integer. -/
theorem amount_uint64_cex :
    ¬ (AmountBlockchain.toUint64 ((2 : Int) ^ 64) : Int) = (2 : Int) ^ 64 := by
  decide

/-- Claim C9 (amended): `Uint64()` is exact on the `uint64` range — composed
with `NewAmountBlockchainFromUint64` it is the identity, and on every
non-negative value below `2^64` it returns exactly the represented integer —
but on larger magnitudes it returns only the low 64 bits. -/
theorem amount_uint64_exact :
    (∀ u : Nat, u < 2 ^ 64 →
      AmountBlockchain.toUint64 (NewAmountBlockchainFromUint64 u) = u) ∧
    (∀ v : AmountBlockchain, 0 ≤ v → v < 2 ^ 64 →
      (AmountBlockchain.toUint64 v : Int) = v) := by
  constructor
  · intro u hu
    unfold AmountBlockchain.toUint64 NewAmountBlockchainFromUint64
    rw [Nat.mod_eq_of_lt hu]
    rw [Int.natAbs_ofNat]
    exact Nat.mod_eq_of_lt hu
  · intro v h0 hv
    unfold AmountBlockchain.toUint64
    have h1 : (v.natAbs : Int) = v := Int.natAbs_of_nonneg h0
    have h2 : v.natAbs < 2 ^ 64 := by
      zify
      rw [abs_of_nonneg h0]
      exact hv
    rw [Nat.mod_eq_of_lt h2]
    exact h1

/-- Claim C9 witness: the amended exactness theorem applied at the concrete
values `5` and `7`. -/
theorem amount_uint64_exact_witness :
    (5 < 2 ^ 64 ∧ AmountBlockchain.toUint64 (NewAmountBlockchainFromUint64 5) = 5) ∧
    ((0 : Int) ≤ 7 ∧ (7 : Int) < 2 ^ 64 ∧
      (AmountBlockchain.toUint64 (7 : Int) : Int) = 7) :=
  ⟨⟨by decide, amount_uint64_exact.1 5 (by decide)⟩,
   ⟨by decide, by decide, amount_uint64_exact.2 7 (by decide) (by decide)⟩⟩

end Crosschain

namespace Cosmos

open Crosschain

lemma parseLoop_append (acc : Option Msg) (a b : List Msg) :
    parseLoop acc (a ++ b) = parseLoop (parseLoop acc a) b := by
  induction a generalizing acc with
  | nil => rfl
  | cons m rest ih =>
    cases m with
    | msgSend f t cs =>
      simp only [List.cons_append, parseLoop]
      exact ih _
    | other tag =>
      simp only [List.cons_append, parseLoop]
      exact ih _

lemma parseLoop_skip (post : List Msg) (hpost : ∀ m ∈ post, m.isSend = false)
    (acc : Option Msg) : parseLoop acc post = acc := by
  induction post with
  | nil => rfl
  | cons m rest ih =>
    cases m with
    | msgSend f t cs =>
      exact absurd (hpost _ (List.mem_cons_self _ _)) (by simp [Msg.isSend])
    | other tag =>
      exact (ih fun m hm => hpost m (List.mem_cons_of_mem _ hm))

lemma tmhashSum_length (bs : List Nat) : (tmhashSum bs).length = 32 := by
  simp [tmhashSum]

lemma hexEncode_length (bs : List Nat) : (hexEncode bs).length = 2 * bs.length := by
  induction bs with
  | nil => rfl
  | cons b t ih =>
    have h : hexEncode (b :: t) =
        hexDigit (b / 16) :: hexDigit (b % 16) :: hexEncode t := rfl
    rw [h]
    simp only [List.length_cons, ih]
    omega

lemma hexEncode_tmhash_ne_nil (bs : List Nat) : hexEncode (tmhashSum bs) ≠ [] := by
  intro h
  have hl := congrArg List.length h
  rw [hexEncode_length, tmhashSum_length] at hl
  simp at hl

/-- Claim C3 counterexample: with two recognized transfer messages in the
list, `ParseTransfer` projects the second (last) one, not the first:
`From()` reads back `"bob"`, the sender of the second `MsgSend`, while the
first transfer-bearing message has sender `"alice"`. -/
theorem parseTransfer_first_cex :
    (Tx.parseTransfer
      { cosmosTx := some
          { msgs := [Msg.msgSend (rstr "alice") (rstr "to1") [],
                     Msg.msgSend (rstr "bob") (rstr "to2") []],
            isFeeTx := false, fee := [] },
        parsedTransfer := none, cosmosTxBuilder := none,
        cosmosTxEncoder := none, sigsV2 := [], txDataToSign := none }).map
        Tx.fromAddress = some (rstr "bob") ∧
    rstr "bob" ≠ rstr "alice" :=
  ⟨rfl, by decide⟩

/-- Claim C3 (amended): `ParseTransfer` projects the LAST transfer-bearing
message of the list (each recognized `MsgSend` overwrites the previous
one); messages of unrecognized kinds are skipped; `From()`, `To()` and
`Amount()` read that message back. -/
theorem parseTransfer_projects_last (tx : Tx) (d : CosmosTxData)
    (pre post : List Msg) (f t : List Nat) (cs : List Coin)
    (hd : tx.cosmosTx = some d)
    (hmsgs : d.msgs = pre ++ Msg.msgSend f t cs :: post)
    (hpost : ∀ m ∈ post, m.isSend = false) :
    ∃ tx2, Tx.parseTransfer tx = some tx2 ∧
      tx2.parsedTransfer = some (Msg.msgSend f t cs) ∧
      tx2.fromAddress = f ∧ tx2.toAddress = t ∧
      (∀ c rest, cs = c :: rest → tx2.amount = some c.amount) := by
  have hloop : parseLoop tx.parsedTransfer d.msgs = some (Msg.msgSend f t cs) := by
    rw [hmsgs, parseLoop_append]
    show parseLoop (some (Msg.msgSend f t cs)) post = some (Msg.msgSend f t cs)
    exact parseLoop_skip post hpost _
  refine ⟨{ tx with parsedTransfer := some (Msg.msgSend f t cs) }, ?_, rfl, rfl, rfl, ?_⟩
  · unfold Tx.parseTransfer
    split
    · rename_i heq
      rw [hd] at heq
      exact Option.noConfusion heq
    · rename_i d1 heq
      rw [hd] at heq
      injection heq with h
      subst h
      rw [hloop]
  · intro c rest hcs
    subst hcs
    rfl

/-- Claim C3 witness: the last-transfer projection theorem applied to a
concrete three-message transaction (unrecognized, transfer, unrecognized). -/
theorem parseTransfer_projects_last_witness :
    ∃ tx2,
      Tx.parseTransfer
        { cosmosTx := some
            { msgs := [Msg.other 7,
                       Msg.msgSend (rstr "carol") (rstr "dave") [⟨rstr "atom", 5⟩],
                       Msg.other 9],
              isFeeTx := false, fee := [] },
          parsedTransfer := none, cosmosTxBuilder := none,
          cosmosTxEncoder := none, sigsV2 := [], txDataToSign := none } = some tx2 ∧
      tx2.parsedTransfer =
        some (Msg.msgSend (rstr "carol") (rstr "dave") [⟨rstr "atom", 5⟩]) ∧
      tx2.fromAddress = rstr "carol" ∧ tx2.toAddress = rstr "dave" ∧
      (∀ c rest, [(⟨rstr "atom", 5⟩ : Coin)] = c :: rest → tx2.amount = some c.amount) :=
  parseTransfer_projects_last _ _ [Msg.other 7] [Msg.other 9]
    (rstr "carol") (rstr "dave") [⟨rstr "atom", 5⟩] rfl rfl (by decide)

/-- Claim C4 counterexample: the adapter accessors are not panic-free.
`Amount()` panics (index out of range) when the parsed transfer carries an
empty coin list, `Fee()` panics when a fee-bearing transaction carries an
empty fee list, and `AddSignature()` panics (failed type assertion) when the
first signer slot's data is not single-signature data — all modelled as
`none` results. -/
theorem accessors_panic_cex :
    Tx.amount
      { cosmosTx := none,
        parsedTransfer := some (Msg.msgSend (rstr "a") (rstr "b") []),
        cosmosTxBuilder := none, cosmosTxEncoder := none,
        sigsV2 := [], txDataToSign := none } = none ∧
    Tx.fee
      { cosmosTx := some { msgs := [], isFeeTx := true, fee := [] },
        parsedTransfer := none, cosmosTxBuilder := none, cosmosTxEncoder := none,
        sigsV2 := [], txDataToSign := none } = none ∧
    Tx.addSignature
      { cosmosTx := none, parsedTransfer := none,
        cosmosTxBuilder := some { getTx := none }, cosmosTxEncoder := none,
        sigsV2 := [{ data := SignatureData.multi 0 }], txDataToSign := none }
      (rstr "sig") = none :=
  ⟨rfl, rfl, rfl⟩

/-- Claim C4 (amended): `Amount()`, `Fee()` and `AddSignature()` complete
without panicking provided the parsed transfer's coin list is non-empty, a
fee-bearing transaction's fee list is non-empty, and the first signer
slot's data is single-signature data; in the missing-state cases they
return zero values or errors, never aborting. -/
theorem accessors_no_panic (tx : Tx) (signature : List Nat)
    (hA : ∀ f t cs, tx.parsedTransfer = some (Msg.msgSend f t cs) → cs ≠ [])
    (hF : ∀ d, tx.cosmosTx = some d → d.isFeeTx = true → d.fee ≠ [])
    (hS : ∀ s rest, tx.sigsV2 = s :: rest → tx.cosmosTxBuilder ≠ none →
      ∃ m sg, s.data = SignatureData.single m sg) :
    (Tx.amount tx).isSome = true ∧ (Tx.fee tx).isSome = true ∧
    (Tx.addSignature tx signature).isSome = true := by
  refine ⟨?_, ?_, ?_⟩
  · unfold Tx.amount
    cases hp : tx.parsedTransfer with
    | none => rfl
    | some m =>
      cases m with
      | msgSend f t cs =>
        cases cs with
        | nil => exact absurd rfl (hA f t [] hp)
        | cons c rest => rfl
      | other tag => rfl
  · unfold Tx.fee
    cases hc : tx.cosmosTx with
    | none => rfl
    | some d =>
      cases hft : d.isFeeTx with
      | false => simp [hft]
      | true =>
        cases hf : d.fee with
        | nil => exact absurd hf (hF d hc hft)
        | cons c rest => simp [hft, hf]
  · unfold Tx.addSignature
    cases hs : tx.sigsV2 with
    | nil => rfl
    | cons s rest =>
      cases hb : tx.cosmosTxBuilder with
      | none => rfl
      | some b =>
        rcases s with ⟨sd⟩
        cases sd with
        | single m0 sg0 => rfl
        | multi tag =>
          obtain ⟨m, sg, hdata⟩ :=
            hS ⟨SignatureData.multi tag⟩ rest hs
              (by rw [hb]; exact fun h => Option.noConfusion h)
          exact SignatureData.noConfusion hdata

/-- Claim C4 witness: the no-panic theorem applied to the fully initialized
transaction `initializedTx`, discharging each side condition with the
concrete non-empty coin list, non-empty fee list and single-signature first
slot, so every guarded access (the two index-0 reads and the signature-data
cast) lies on the evaluated path. -/
theorem accessors_no_panic_witness :
    (Tx.amount initializedTx).isSome = true ∧
    (Tx.fee initializedTx).isSome = true ∧
    (Tx.addSignature initializedTx (rstr "sig")).isSome = true :=
  accessors_no_panic initializedTx (rstr "sig")
    (fun f t cs h => by
      injection h with h2
      injection h2 with hf ht hcs
      rw [← hcs]
      decide)
    (fun d h _ => by
      injection h with h2
      rw [← h2]
      decide)
    (fun s rest h _ => by
      injection h with h1 h2
      exact ⟨1, rstr "old", by rw [← h1]⟩)

/-- Claim C6: `Sighash()` returns the "transaction not initialized" error
exactly when no signing payload is staged (`TxDataToSign` is nil) and
otherwise returns the staged payload; `AddSignature()` returns that error
exactly when the signer-slot list is nil/empty or the builder is nil; and
in the uninitialized case `AddSignature()` does not crash. -/
theorem not_initialized_errors (tx : Tx) :
    (Tx.sighash tx = Except.error "transaction not initialized" ↔
      tx.txDataToSign = none) ∧
    (∀ d, tx.txDataToSign = some d → Tx.sighash tx = Except.ok d) ∧
    (∀ signature : List Nat,
      (Tx.addSignature tx signature =
          some (Except.error "transaction not initialized") ↔
        (tx.sigsV2 = [] ∨ tx.cosmosTxBuilder = none)) ∧
      ((tx.sigsV2 = [] ∨ tx.cosmosTxBuilder = none) →
        Tx.addSignature tx signature ≠ none)) := by
  refine ⟨?_, ?_, ?_⟩
  · unfold Tx.sighash
    cases ht : tx.txDataToSign with
    | none => simp
    | some d => simp
  · intro d hd
    unfold Tx.sighash
    rw [hd]
  · intro signature
    unfold Tx.addSignature
    cases hs : tx.sigsV2 with
    | nil => simp
    | cons s rest =>
      cases hb : tx.cosmosTxBuilder with
      | none => simp
      | some b =>
        rcases s with ⟨sd⟩
        cases sd with
        | single m sg => simp
        | multi tag => simp

/-- Claim C6 witness: the uninitialized-state theorem applied to a concrete
transaction with a staged payload, whose `Sighash()` returns it. -/
theorem not_initialized_errors_witness :
    Tx.sighash ⟨none, none, none, none, [], some (Crosschain.rstr "ab")⟩ =
      Except.ok (Crosschain.rstr "ab") :=
  (not_initialized_errors ⟨none, none, none, none, [], some (Crosschain.rstr "ab")⟩).2.1
    (Crosschain.rstr "ab") rfl

/-- Claim C7: `Hash()` returns the empty string exactly when serialization is
not possible (`Serialize()` errs, or returns nil or empty bytes), and
otherwise returns the non-empty hex encoding of the digest of the
serialized bytes; it is a total function returning no error. -/
theorem hash_empty_sentinel (tx : Tx) :
    (Tx.hash tx = [] ↔
      ((Tx.serialize tx).2 ≠ none ∨ (Tx.serialize tx).1 = none ∨
        (Tx.serialize tx).1 = some [])) ∧
    (∀ bs, (Tx.serialize tx).2 = none → (Tx.serialize tx).1 = some bs →
      bs ≠ [] → Tx.hash tx = hexEncode (tmhashSum bs) ∧ Tx.hash tx ≠ []) := by
  have hdef : Tx.hash tx =
      (match (Tx.serialize tx).2, (Tx.serialize tx).1 with
       | some _, _ => []
       | none, none => []
       | none, some serialized =>
         if serialized.length = 0 then [] else hexEncode (tmhashSum serialized)) := by
    unfold Tx.hash
    rfl
  constructor
  · rw [hdef]
    cases herr : (Tx.serialize tx).2 with
    | some e => simp
    | none =>
      cases hser : (Tx.serialize tx).1 with
      | none => simp
      | some bs =>
        cases bs with
        | nil => simp
        | cons c rest =>
          simp only [List.length_cons, Nat.succ_ne_zero, if_neg]
          constructor
          · intro h
            exact absurd h (hexEncode_tmhash_ne_nil _)
          · rintro (h | h | h)
            · exact absurd rfl h
            · exact Option.noConfusion h
            · injection h with h2
              exact List.noConfusion h2
  · intro bs herr hser hbs
    rw [hdef, herr, hser]
    have hlen : ¬ bs.length = 0 := fun h => hbs (List.length_eq_zero.1 h)
    show (if bs.length = 0 then [] else hexEncode (tmhashSum bs)) =
        hexEncode (tmhashSum bs) ∧
      (if bs.length = 0 then [] else hexEncode (tmhashSum bs)) ≠ []
    rw [if_neg hlen]
    exact ⟨rfl, hexEncode_tmhash_ne_nil bs⟩

/-- Claim C7 witness: the empty-hash sentinel theorem applied to a concrete
serializable transaction whose encoder yields the bytes `[1, 2]`. -/
theorem hash_empty_sentinel_witness :
    Tx.hash
        ⟨some { msgs := [], isFeeTx := false, fee := [] }, none, none,
          some (fun _ => (some [1, 2], none)), [], none⟩ =
      hexEncode (tmhashSum [1, 2]) ∧
    Tx.hash
        ⟨some { msgs := [], isFeeTx := false, fee := [] }, none, none,
          some (fun _ => (some [1, 2], none)), [], none⟩ ≠ [] :=
  (hash_empty_sentinel
      ⟨some { msgs := [], isFeeTx := false, fee := [] }, none, none,
        some (fun _ => (some [1, 2], none)), [], none⟩).2
    [1, 2] rfl rfl (by decide)

/-- Claim C8: for every public-key input, the cosmos
`GetAllPossibleAddressesFromPublicKey` returns exactly one entry tagged
with the default variant, carrying the attempted address of
`GetAddressFromPublicKey` paired with its derivation error; and whenever
that paired error is nil, every entry's address is non-empty. -/
theorem address_derivation_completeness (publicKeyBytes : List Nat) :
    (getAllPossibleAddressesFromPublicKey publicKeyBytes).1.length = 1 ∧
    (getAllPossibleAddressesFromPublicKey publicKeyBytes).1 =
      [{ address := (getAddressFromPublicKey publicKeyBytes).1,
         addrType := AddressType.default }] ∧
    (getAllPossibleAddressesFromPublicKey publicKeyBytes).2 =
      (getAddressFromPublicKey publicKeyBytes).2 ∧
    ((getAllPossibleAddressesFromPublicKey publicKeyBytes).2 = none →
      ∀ a ∈ (getAllPossibleAddressesFromPublicKey publicKeyBytes).1,
        a.address ≠ []) := by
  refine ⟨rfl, rfl, rfl, ?_⟩
  intro h
  exact absurd h (by simp [getAllPossibleAddressesFromPublicKey, getAddressFromPublicKey])

/-- Claim C8 witness: the completeness theorem applied at the empty public
key: the returned sequence has exactly one entry and carries the
derivation error of `GetAddressFromPublicKey`. -/
theorem address_derivation_completeness_witness :
    (getAllPossibleAddressesFromPublicKey []).1.length = 1 ∧
    (getAllPossibleAddressesFromPublicKey []).2 = (getAddressFromPublicKey []).2 :=
  ⟨(address_derivation_completeness []).1,
   (address_derivation_completeness []).2.2.1⟩

end Cosmos
